import Mathlib

/-!
# Verification of the Tonatiuh++ angular-distribution analysis core

Shallow embedding of the ray-path reconstruction and processing pipeline:

* `Photon`, `RayPath` — the data model (`part_002` / `part_003` headers).
  A photon's position fields are IEEE doubles in the C++ source; every
  finite double is a rational number and this layer performs no arithmetic
  on them, so positions are carried as `ℚ` here and cast to `ℝ` at the
  geometric processors, where real arithmetic happens.
* the path reconstructor (`processPhotonsInBuffer`, `serveRayPaths`) —
  modelled from the specification, since only its declaration is present
  in the sources.
* `RaypathServer.servePhotons` — from `src/raypathserver.cpp`.
* `gcf.convertToNativeEndian` — from `include/gcf.h`, at byte level.
* `RaypathDirectionsProcessor.processRayPath` — from the directions
  processor implementation.
* `RaypathLocalCoordinateProcessor.processRayPath` — from
  `raypathlocalcoordinateprocessor.cpp`.
-/

/-- One simulated ray/surface interaction point (struct `Photon`).
Integer-like fields are `int32_t` in the source; positions are doubles,
carried here as rationals (no arithmetic is done on them before they are
cast into `vec3d` by a processor). -/
structure Photon where
  ID : Int
  x : ℚ
  y : ℚ
  z : ℚ
  side : Int
  previousID : Int
  nextID : Int
  surfaceID : Int
deriving Repr, DecidableEq

/-- An ordered sequence of photons forming one ray path (struct `RayPath`). -/
structure RayPath where
  photons : List Photon
deriving Repr, DecidableEq

namespace Reconstructor

/-- Seal a buffer: emit it as a completed `RayPath` only if it has at
least 2 photons, else discard it. -/
def sealEmit (out : List RayPath) (buf : List Photon) : List RayPath :=
  if 2 ≤ buf.length then out ++ [⟨buf⟩] else out

/-- Modelled from the spec: one step of the path reconstructor
(`RaypathServer::processPhotonsInBuffer`, whose implementation is not in
the sources).  For each incoming photon: if `previousID == 0` and the
current buffer is non-empty, seal the current buffer (emit only if its
length is at least 2) and start a new buffer; append the photon; if
`nextID == 0`, seal the buffer and reset it to empty. -/
def reconStep : List RayPath × List Photon → Photon → List RayPath × List Photon
  | (out, buf), p =>
    let s := if p.previousID = 0 ∧ buf ≠ [] then (sealEmit out buf, ([] : List Photon)) else (out, buf)
    let buf2 := s.2 ++ [p]
    if p.nextID = 0 then (sealEmit s.1 buf2, []) else (s.1, buf2)

/-- Modelled from the spec: `RaypathServer::processPhotonsInBuffer` run
over one file's decoded photons.  The trailing open chain (the unsealed
buffer left at end of file) is silently dropped. -/
def processPhotonsInBuffer (photons : List Photon) : List RayPath :=
  (photons.foldl reconStep ([], [])).1

/-- Chain-recording variant of `reconStep`: seals every chain, including
those shorter than 2 photons, so that the input decomposes exactly into
the sealed chains followed by the open buffer. -/
def chopStep : List (List Photon) × List Photon → Photon → List (List Photon) × List Photon
  | (cs, buf), p =>
    let s := if p.previousID = 0 ∧ buf ≠ [] then (cs ++ [buf], ([] : List Photon)) else (cs, buf)
    let buf2 := s.2 ++ [p]
    if p.nextID = 0 then (s.1 ++ [buf2], []) else (s.1, buf2)

/-- All sealed chains of a photon stream, plus the trailing open buffer. -/
def chop (photons : List Photon) : List (List Photon) × List Photon :=
  photons.foldl chopStep ([], [])

/-- The ray paths that the reconstructor emits from a list of sealed
chains: exactly the chains with at least 2 photons. -/
def emitOf (cs : List (List Photon)) : List RayPath :=
  (cs.filter fun c => 2 ≤ c.length).map RayPath.mk

/-- Modelled from the spec: walk the sealed chains of the current file,
emitting completed ray paths until the caller-supplied cap is reached,
and counting how many records were consumed (chains are consumed whole,
dropped short chains included).  Returns the emitted paths, the records
consumed, and whether the cap was reached.  Assumes a positive cap. -/
def takeChains : Nat → List (List Photon) → List RayPath × Nat × Bool
  | _, [] => ([], 0, false)
  | n, c :: cs =>
    if 2 ≤ c.length then
      if n ≤ 1 then ([⟨c⟩], c.length, true)
      else
        let r := takeChains (n - 1) cs
        (⟨c⟩ :: r.1, c.length + r.2.1, r.2.2)
    else
      let r := takeChains n cs
      (r.1, c.length + r.2.1, r.2.2)

/-- Modelled from the spec: `RaypathServer::serveRayPaths` (implementation
absent from the sources).  The server state is the remaining stream of
files (the cursor's file suffix, with the current file already partially
consumed).  It serves up to `n` completed ray paths, pulling from as many
files as necessary; a path boundary is never carried across file loads:
each file's trailing open chain is silently dropped and the next file is
reconstructed from an empty buffer. -/
def serveRayPaths : List (List Photon) → Nat → List RayPath × List (List Photon)
  | [], _ => ([], [])
  | f :: fs, 0 => ([], f :: fs)
  | f :: fs, n + 1 =>
    let cs := (chop f).1
    let r := takeChains (n + 1) cs
    if r.2.2 then (r.1, f.drop r.2.1 :: fs)
    else
      let rest := serveRayPaths fs (n + 1 - r.1.length)
      (r.1 ++ rest.1, rest.2)

end Reconstructor

namespace Reconstructor

theorem sealEmit_eq (out : List RayPath) (buf : List Photon) :
    sealEmit out buf = out ++ emitOf [buf] := by
  by_cases h : 2 ≤ buf.length <;> simp [sealEmit, emitOf, h]

theorem emitOf_append (a b : List (List Photon)) :
    emitOf (a ++ b) = emitOf a ++ emitOf b := by
  simp [emitOf, List.filter_append]

theorem emitOf_nil : emitOf [] = [] := rfl

theorem emitOf_cons (c : List Photon) (cs : List (List Photon)) :
    emitOf (c :: cs) = (if 2 ≤ c.length then [RayPath.mk c] else []) ++ emitOf cs := by
  by_cases h : 2 ≤ c.length <;> simp [emitOf, h]

theorem chopStep_acc (cs : List (List Photon)) (buf : List Photon) (p : Photon) :
    chopStep (cs, buf) p = (cs ++ (chopStep ([], buf) p).1, (chopStep ([], buf) p).2) := by
  by_cases h1 : p.previousID = 0 ∧ buf ≠ [] <;>
    by_cases h2 : p.nextID = 0 <;>
      simp [chopStep, h1, h2]

theorem reconStep_chopStep (out : List RayPath) (buf : List Photon) (p : Photon) :
    reconStep (out, buf) p
      = (out ++ emitOf (chopStep ([], buf) p).1, (chopStep ([], buf) p).2) := by
  by_cases h1 : p.previousID = 0 ∧ buf ≠ [] <;>
    by_cases h2 : p.nextID = 0 <;>
      simp [reconStep, chopStep, h1, h2, sealEmit_eq, emitOf_cons, emitOf_nil]

theorem foldl_chop_acc (xs : List Photon) (cs : List (List Photon)) (buf : List Photon) :
    xs.foldl chopStep (cs, buf)
      = (cs ++ (xs.foldl chopStep ([], buf)).1, (xs.foldl chopStep ([], buf)).2) := by
  induction xs generalizing cs buf with
  | nil => simp
  | cons p xs ih =>
    rcases hstep : chopStep ([], buf) p with ⟨c1, b1⟩
    simp only [List.foldl_cons, chopStep_acc cs buf p, hstep]
    rw [ih (cs ++ c1) b1, ih c1 b1]
    simp

theorem foldl_recon_chop (xs : List Photon) (out : List RayPath) (buf : List Photon) :
    xs.foldl reconStep (out, buf)
      = (out ++ emitOf (xs.foldl chopStep ([], buf)).1, (xs.foldl chopStep ([], buf)).2) := by
  induction xs generalizing out buf with
  | nil => simp [emitOf]
  | cons p xs ih =>
    rcases hstep : chopStep ([], buf) p with ⟨c1, b1⟩
    simp only [List.foldl_cons, reconStep_chopStep out buf p, hstep]
    rw [ih (out ++ emitOf c1) b1, foldl_chop_acc xs c1 b1]
    simp [emitOf_append]

theorem processPhotonsInBuffer_eq (f : List Photon) :
    processPhotonsInBuffer f = emitOf (chop f).1 := by
  simp [processPhotonsInBuffer, chop, foldl_recon_chop]

theorem chop_join (xs : List Photon) (cs : List (List Photon)) (buf : List Photon) :
    ((xs.foldl chopStep (cs, buf)).1).flatten ++ (xs.foldl chopStep (cs, buf)).2
      = cs.flatten ++ (buf ++ xs) := by
  induction xs generalizing cs buf with
  | nil => simp
  | cons p xs ih =>
    simp only [List.foldl_cons]
    by_cases h1 : p.previousID = 0 ∧ buf ≠ [] <;>
      by_cases h2 : p.nextID = 0 <;>
        simp [chopStep, h1, h2, ih]

theorem chop_decomp (f : List Photon) :
    ((chop f).1).flatten ++ (chop f).2 = f := by
  simpa using chop_join f [] []

theorem chopStep_snd_ne (s : List (List Photon) × List Photon) (p : Photon)
    (h : p.nextID ≠ 0) : (chopStep s p).2 ≠ [] := by
  obtain ⟨cs, buf⟩ := s
  by_cases h1 : p.previousID = 0 ∧ buf ≠ [] <;>
    simp [chopStep, h1, h]

theorem chop_snd_ne (f : List Photon) (hne : f ≠ [])
    (hlast : (f.getLast hne).nextID ≠ 0) : (chop f).2 ≠ [] := by
  have hf : f = f.dropLast ++ [f.getLast hne] := (List.dropLast_append_getLast hne).symm
  rw [chop, hf, List.foldl_append, List.foldl_cons, List.foldl_nil]
  exact chopStep_snd_ne _ _ hlast

theorem takeChains_mem (n : Nat) (cs : List (List Photon)) (rp : RayPath)
    (h : rp ∈ (takeChains n cs).1) : 2 ≤ rp.photons.length := by
  induction cs generalizing n with
  | nil => simp [takeChains] at h
  | cons c cs ih =>
    by_cases hc : 2 ≤ c.length
    · by_cases hn : n ≤ 1
      · simp [takeChains, hc, hn] at h
        subst h; exact hc
      · simp [takeChains, hc, hn] at h
        rcases h with h | h
        · subst h; exact hc
        · exact ih _ h
    · simp [takeChains, hc] at h
      exact ih _ h

theorem takeChains_not_reached (n : Nat) (cs : List (List Photon))
    (h : (takeChains n cs).2.2 = false) : (takeChains n cs).1 = emitOf cs := by
  induction cs generalizing n with
  | nil => simp [takeChains, emitOf]
  | cons c cs ih =>
    by_cases hc : 2 ≤ c.length
    · by_cases hn : n ≤ 1
      · simp [takeChains, hc, hn] at h
      · simp only [takeChains, if_pos hc, if_neg hn] at h ⊢
        simp [emitOf, hc, ih _ h]
    · simp only [takeChains, if_neg hc] at h ⊢
      simp [emitOf, hc, ih _ h]

theorem serveRayPaths_mem (fs : List (List Photon)) (n : Nat) (rp : RayPath)
    (h : rp ∈ (serveRayPaths fs n).1) : 2 ≤ rp.photons.length := by
  induction fs generalizing n with
  | nil => simp [serveRayPaths] at h
  | cons f fs ih =>
    match n with
    | 0 => simp [serveRayPaths] at h
    | n + 1 =>
      cases hr : (takeChains (n + 1) (chop f).1).2.2 with
      | true =>
        simp only [serveRayPaths, hr, if_true] at h
        exact takeChains_mem _ _ _ h
      | false =>
        simp only [serveRayPaths, hr, Bool.false_eq_true, if_false, List.mem_append] at h
        rcases h with h | h
        · exact takeChains_mem _ _ _ h
        · exact ih _ h

end Reconstructor

/-- C1: for every input stream of decoded photon files and every request
size, every `RayPath` emitted to a consumer by `serveRayPaths` contains at
least 2 photons; no empty or singleton path is ever returned. -/
theorem C1_no_short_raypath_served (fs : List (List Photon)) (n : Nat) (rp : RayPath)
    (h : rp ∈ (Reconstructor.serveRayPaths fs n).1) : 2 ≤ rp.photons.length :=
  Reconstructor.serveRayPaths_mem fs n rp h

theorem C1_no_short_raypath_served_witness :
    RayPath.mk [⟨1, 0, 0, 0, 0, 0, 2, 0⟩, ⟨2, 0, 0, 0, 0, 1, 0, 0⟩]
        ∈ (Reconstructor.serveRayPaths
            [[⟨1, 0, 0, 0, 0, 0, 2, 0⟩, ⟨2, 0, 0, 0, 0, 1, 0, 0⟩]] 3).1
    ∧ 2 ≤ (RayPath.mk [⟨1, 0, 0, 0, 0, 0, 2, 0⟩, ⟨2, 0, 0, 0, 0, 1, 0, 0⟩]).photons.length :=
  ⟨by decide,
    C1_no_short_raypath_served [[⟨1, 0, 0, 0, 0, 0, 2, 0⟩, ⟨2, 0, 0, 0, 0, 1, 0, 0⟩]] 3
      (RayPath.mk [⟨1, 0, 0, 0, 0, 0, 2, 0⟩, ⟨2, 0, 0, 0, 0, 1, 0, 0⟩]) (by decide)⟩

/-- C2: fed the photon stream `[id=1,prev=0,next=2], [id=2,prev=1,next=0],
[id=3,prev=0,next=0]` (whatever its position, side and surface data), the
path reconstructor emits exactly one `RayPath`, made of the photons with
ids 1 and 2 in that order; the singleton chain with id 3 is dropped.  The
same holds when the stream is served through `serveRayPaths`. -/
theorem C2_boundary_stream (x1 y1 z1 x2 y2 z2 x3 y3 z3 : ℚ)
    (sd1 sd2 sd3 sf1 sf2 sf3 : Int) :
    Reconstructor.processPhotonsInBuffer
        [⟨1, x1, y1, z1, sd1, 0, 2, sf1⟩, ⟨2, x2, y2, z2, sd2, 1, 0, sf2⟩,
         ⟨3, x3, y3, z3, sd3, 0, 0, sf3⟩]
      = [RayPath.mk [⟨1, x1, y1, z1, sd1, 0, 2, sf1⟩, ⟨2, x2, y2, z2, sd2, 1, 0, sf2⟩]]
    ∧ (Reconstructor.serveRayPaths
        [[⟨1, x1, y1, z1, sd1, 0, 2, sf1⟩, ⟨2, x2, y2, z2, sd2, 1, 0, sf2⟩,
          ⟨3, x3, y3, z3, sd3, 0, 0, sf3⟩]] 5).1
      = [RayPath.mk [⟨1, x1, y1, z1, sd1, 0, 2, sf1⟩, ⟨2, x2, y2, z2, sd2, 1, 0, sf2⟩]] := by
  constructor <;>
    simp [Reconstructor.processPhotonsInBuffer, Reconstructor.serveRayPaths,
      Reconstructor.reconStep, Reconstructor.chop, Reconstructor.chopStep,
      Reconstructor.takeChains, Reconstructor.sealEmit]

/-- C3: a file whose last record has `nextID ≠ 0` leaves a non-empty
trailing open chain; the file splits exactly into the sealed chains
followed by that open chain; the reconstructor emits only the sealed
chains of length at least 2 (so the open chain is never emitted); and
`serveRayPaths` restarts the next file from scratch, so the boundary is
never carried across file loads. -/
theorem C3_trailing_open_chain_dropped (f : List Photon) (fs : List (List Photon)) (n : Nat)
    (hne : f ≠ []) (hlast : (f.getLast hne).nextID ≠ 0)
    (hn : n ≠ 0)
    (hcap : (Reconstructor.takeChains n (Reconstructor.chop f).1).2.2 = false) :
    (Reconstructor.chop f).2 ≠ []
    ∧ ((Reconstructor.chop f).1).flatten ++ (Reconstructor.chop f).2 = f
    ∧ Reconstructor.processPhotonsInBuffer f = Reconstructor.emitOf (Reconstructor.chop f).1
    ∧ (Reconstructor.serveRayPaths (f :: fs) n).1
        = Reconstructor.processPhotonsInBuffer f
          ++ (Reconstructor.serveRayPaths fs
                (n - (Reconstructor.processPhotonsInBuffer f).length)).1 := by
  refine ⟨Reconstructor.chop_snd_ne f hne hlast, Reconstructor.chop_decomp f,
    Reconstructor.processPhotonsInBuffer_eq f, ?_⟩
  match n, hn with
  | n + 1, _ =>
    simp only [Reconstructor.serveRayPaths, hcap, Bool.false_eq_true, if_false]
    simp [Reconstructor.processPhotonsInBuffer_eq,
      Reconstructor.takeChains_not_reached _ _ hcap]

theorem C3_trailing_open_chain_dropped_witness :
    (Reconstructor.chop [⟨1, 0, 0, 0, 0, 0, 2, 0⟩, ⟨2, 0, 0, 0, 0, 1, 5, 0⟩]).2 ≠ []
    ∧ ((Reconstructor.chop [⟨1, 0, 0, 0, 0, 0, 2, 0⟩, ⟨2, 0, 0, 0, 0, 1, 5, 0⟩]).1).flatten
        ++ (Reconstructor.chop [⟨1, 0, 0, 0, 0, 0, 2, 0⟩, ⟨2, 0, 0, 0, 0, 1, 5, 0⟩]).2
      = [⟨1, 0, 0, 0, 0, 0, 2, 0⟩, ⟨2, 0, 0, 0, 0, 1, 5, 0⟩]
    ∧ Reconstructor.processPhotonsInBuffer [⟨1, 0, 0, 0, 0, 0, 2, 0⟩, ⟨2, 0, 0, 0, 0, 1, 5, 0⟩]
      = Reconstructor.emitOf
          (Reconstructor.chop [⟨1, 0, 0, 0, 0, 0, 2, 0⟩, ⟨2, 0, 0, 0, 0, 1, 5, 0⟩]).1
    ∧ (Reconstructor.serveRayPaths
          [[⟨1, 0, 0, 0, 0, 0, 2, 0⟩, ⟨2, 0, 0, 0, 0, 1, 5, 0⟩]] 2).1
      = Reconstructor.processPhotonsInBuffer
          [⟨1, 0, 0, 0, 0, 0, 2, 0⟩, ⟨2, 0, 0, 0, 0, 1, 5, 0⟩]
        ++ (Reconstructor.serveRayPaths []
              (2 - (Reconstructor.processPhotonsInBuffer
                      [⟨1, 0, 0, 0, 0, 0, 2, 0⟩, ⟨2, 0, 0, 0, 0, 1, 5, 0⟩]).length)).1 :=
  C3_trailing_open_chain_dropped
    [⟨1, 0, 0, 0, 0, 0, 2, 0⟩, ⟨2, 0, 0, 0, 0, 1, 5, 0⟩] [] 2
    (by decide) (by decide) (by decide) (by decide)

namespace Server

/-- One binary data file: whether it can be opened, plus its raw content
as the flat sequence of its 8-byte fields (each field holds one IEEE
double, already normalized to native byte order; a finite double is a
rational).  The file's byte length is 8 times the field count, so a file
whose byte length is not a multiple of the 64-byte record width is one
whose field count is not a multiple of 8. -/
structure DataFile where
  openable : Bool
  fields : List ℚ
deriving Repr, DecidableEq

/-- Truncation toward zero of an in-range double cast to a signed
integer (`static_cast<int32_t>`). -/
def ratTrunc (q : ℚ) : Int := if 0 ≤ q then ⌊q⌋ else ⌈q⌉

/-- Decode the photon record at record index `j` of a field buffer:
fields `[id, x, y, z, side, previousID, nextID, surfaceID]`
(`RaypathServer::servePhotons`, record-population loop). -/
def decodeRecord (fields : List ℚ) (j : Nat) : Photon :=
  { ID := ratTrunc (fields.getD (j * 8 + 0) 0)
    x := fields.getD (j * 8 + 1) 0
    y := fields.getD (j * 8 + 2) 0
    z := fields.getD (j * 8 + 3) 0
    side := ratTrunc (fields.getD (j * 8 + 4) 0)
    previousID := ratTrunc (fields.getD (j * 8 + 5) 0)
    nextID := ratTrunc (fields.getD (j * 8 + 6) 0)
    surfaceID := ratTrunc (fields.getD (j * 8 + 7) 0) }

/-- Decode `count` consecutive records starting at record index `start`. -/
def decodeRecords (fields : List ℚ) (start count : Nat) : List Photon :=
  (List.range count).map fun i => decodeRecord fields (start + i)

/-- Server cursor: `m_currentFileIndex` and `m_currentPhotonIndex`. -/
structure Cursor where
  fileIndex : Nat
  photonIndex : Nat
deriving Repr, DecidableEq

/-- `gcf::getMemoryThreshold`: half the available memory, clamped to
[256 MB, 2 GB]. -/
def getMemoryThreshold (availableMemory : Nat) : Nat :=
  let minThreshold := 256 * 1024 * 1024
  let maxThreshold := 2 * 1024 * 1024 * 1024
  let threshold := availableMemory / 2
  if threshold < minThreshold then minThreshold
  else if threshold > maxThreshold then maxThreshold
  else threshold

theorem getMemoryThreshold_ge (m : Nat) :
    256 * 1024 * 1024 ≤ getMemoryThreshold m := by
  simp only [getMemoryThreshold]
  split
  · omega
  · split <;> omega

/-- `maxPhotonsPerBatch`: the memory threshold in doubles, divided by
the 8 doubles of a record. -/
def maxPhotonsPerBatch (availableMemory : Nat) : Nat :=
  getMemoryThreshold availableMemory / 8 / 8

theorem maxPhotonsPerBatch_pos (m : Nat) : 0 < maxPhotonsPerBatch m := by
  have h256 := getMemoryThreshold_ge m
  unfold maxPhotonsPerBatch
  omega

/-- The file under the cursor (`m_dataFiles[m_currentFileIndex]`); the
default is never used when the cursor is in range. -/
def curFile (files : List DataFile) (st : Cursor) : DataFile :=
  files.getD st.fileIndex ⟨true, []⟩

/-- `recordsToRead`: the least of the photons still wanted, the records
remaining in the current file (byte length divided by the 64-byte record
width, minus the cursor), and `maxPhotonsPerBatch`. -/
def toRead (files : List DataFile) (mem n : Nat) (st : Cursor) (served : Nat) : Nat :=
  min (n - served)
    (min ((curFile files st).fields.length / 8 - st.photonIndex) (maxPhotonsPerBatch mem))

/-- The while-loop of `RaypathServer::servePhotons`: pull records from
the file at the cursor, at most `recordsToRead` at a time, reopening the
file each iteration; decode them into photons; advance the cursor,
stepping to the next file once the current one is exhausted.  A file
that cannot be opened raises; a read that cannot supply all requested
bytes raises (`gcount` check). -/
def servePhotonsGo (files : List DataFile) (mem : Nat) (n : Nat)
    (st : Cursor) (acc : List Photon) (served : Nat) :
    Except String (List Photon × Cursor) :=
    if served < n ∧ st.fileIndex < files.length then
      if (curFile files st).openable then
        if toRead files mem n st served = 0
            ∨ (st.photonIndex + toRead files mem n st served) * 8
                ≤ (curFile files st).fields.length then
          if (curFile files st).fields.length / 8
              ≤ st.photonIndex + toRead files mem n st served then
            servePhotonsGo files mem n ⟨st.fileIndex + 1, 0⟩
              (acc ++ decodeRecords (curFile files st).fields st.photonIndex
                  (toRead files mem n st served))
              (served + toRead files mem n st served)
          else
            servePhotonsGo files mem n
              ⟨st.fileIndex, st.photonIndex + toRead files mem n st served⟩
              (acc ++ decodeRecords (curFile files st).fields st.photonIndex
                  (toRead files mem n st served))
              (served + toRead files mem n st served)
        else .error "Error reading photon data from file"
      else .error "Failed to open .dat file"
    else .ok (acc, st)
  termination_by (files.length - st.fileIndex, n - served)
  decreasing_by
  · apply Prod.Lex.left
    omega
  · have hb := maxPhotonsPerBatch_pos mem
    apply Prod.Lex.right
    simp only [toRead] at *
    omega

/-- `RaypathServer::servePhotons`: serve up to `n` decoded photons from
the cursor onward. -/
def servePhotons (files : List DataFile) (mem : Nat) (n : Nat) (st : Cursor) :
    Except String (List Photon × Cursor) :=
  servePhotonsGo files mem n st [] 0

/-- All decoded records of one file. -/
def fileRecords (f : DataFile) : List Photon :=
  decodeRecords f.fields 0 (f.fields.length / 8)

/-- The stream of photons still to be served from a cursor position:
the rest of the current file, then every record of every later file. -/
def remainingFrom (files : List DataFile) (st : Cursor) : List Photon :=
  match files[st.fileIndex]? with
  | none => []
  | some f =>
      decodeRecords f.fields st.photonIndex (f.fields.length / 8 - st.photonIndex)
        ++ ((files.drop (st.fileIndex + 1)).map fileRecords).flatten

end Server

namespace Server

theorem decodeRecords_length (fields : List ℚ) (s c : Nat) :
    (decodeRecords fields s c).length = c := by
  simp [decodeRecords]

theorem decodeRecords_split (fields : List ℚ) (s a b : Nat) :
    decodeRecords fields s (a + b)
      = decodeRecords fields s a ++ decodeRecords fields (s + a) b := by
  simp only [decodeRecords, List.range_add, List.map_append, List.map_map]
  refine congrArg _ ?_
  apply List.map_congr_left
  intro i _
  simp only [Function.comp_apply]
  congr 1
  omega

theorem curFile_eq (files : List DataFile) (st : Cursor)
    (h : st.fileIndex < files.length) :
    curFile files st = files.get ⟨st.fileIndex, h⟩ := by
  simp [curFile, List.getD_eq_getElem?_getD, List.getElem?_eq_getElem h]

theorem remainingFrom_out (files : List DataFile) (st : Cursor)
    (h : files.length ≤ st.fileIndex) : remainingFrom files st = [] := by
  have hn : files[st.fileIndex]? = none := List.getElem?_eq_none h
  simp [remainingFrom, hn]

theorem remainingFrom_cons (files : List DataFile) (st : Cursor)
    (h : st.fileIndex < files.length) :
    remainingFrom files st
      = decodeRecords (curFile files st).fields st.photonIndex
          ((curFile files st).fields.length / 8 - st.photonIndex)
        ++ ((files.drop (st.fileIndex + 1)).map fileRecords).flatten := by
  have hc : files[st.fileIndex]? = some (curFile files st) := by
    rw [List.getElem?_eq_getElem h, curFile_eq files st h]
    simp
  simp only [remainingFrom, hc]

theorem remainingFrom_zero (files : List DataFile) (j : Nat) :
    remainingFrom files ⟨j, 0⟩ = ((files.drop j).map fileRecords).flatten := by
  rcases Nat.lt_or_ge j files.length with hj | hj
  · conv_rhs => rw [List.drop_eq_getElem_cons hj]
    rw [remainingFrom_cons files ⟨j, 0⟩ hj]
    have hcf : curFile files ⟨j, 0⟩ = files[j] := by
      rw [curFile_eq files ⟨j, 0⟩ hj]; simp
    simp only [hcf, Nat.sub_zero, List.map_cons, List.flatten_cons, fileRecords]
  · rw [remainingFrom_out files ⟨j, 0⟩ hj, List.drop_eq_nil_of_le hj]
    simp

theorem remainingFrom_advance (files : List DataFile) (st : Cursor)
    (h : st.fileIndex < files.length) (t : Nat)
    (ht : t = (curFile files st).fields.length / 8 - st.photonIndex) :
    remainingFrom files st
      = decodeRecords (curFile files st).fields st.photonIndex t
        ++ remainingFrom files ⟨st.fileIndex + 1, 0⟩ := by
  rw [remainingFrom_cons files st h, remainingFrom_zero, ht]

theorem remainingFrom_stay (files : List DataFile) (st : Cursor)
    (h : st.fileIndex < files.length) (t : Nat)
    (ht : st.photonIndex + t ≤ (curFile files st).fields.length / 8) :
    remainingFrom files st
      = decodeRecords (curFile files st).fields st.photonIndex t
        ++ remainingFrom files ⟨st.fileIndex, st.photonIndex + t⟩ := by
  have hsame : curFile files ⟨st.fileIndex, st.photonIndex + t⟩ = curFile files st := rfl
  rw [remainingFrom_cons files st h,
    remainingFrom_cons files ⟨st.fileIndex, st.photonIndex + t⟩ h, hsame]
  have hsplit : (curFile files st).fields.length / 8 - st.photonIndex
      = t + ((curFile files st).fields.length / 8 - (st.photonIndex + t)) := by omega
  rw [hsplit, decodeRecords_split, List.append_assoc]

theorem chunk_take_drop (A B : List Photon) (acc : List Photon) (m : Nat)
    (ht : A.length ≤ m) :
    acc ++ A ++ B.take (m - A.length) = acc ++ (A ++ B).take m
    ∧ B.drop (m - A.length) = (A ++ B).drop m := by
  constructor
  · rw [List.take_append_eq_append_take, List.take_of_length_le ht, List.append_assoc]
  · rw [List.drop_append_eq_append_drop, List.drop_eq_nil_of_le ht, List.nil_append]

end Server

namespace Server

theorem servePhotonsGo_spec (files : List DataFile) (mem : Nat)
    (hopen : ∀ f ∈ files, f.openable = true) (n : Nat) :
    ∀ (a b : Nat) (st : Cursor) (acc : List Photon) (served : Nat),
      files.length - st.fileIndex ≤ a → n - served ≤ b →
      ∃ st', servePhotonsGo files mem n st acc served
          = .ok (acc ++ (remainingFrom files st).take (n - served), st')
        ∧ remainingFrom files st' = (remainingFrom files st).drop (n - served) := by
  intro a
  induction a with
  | zero =>
    intro b st acc served ha hb
    have hfi : files.length ≤ st.fileIndex := by omega
    have hexit : ¬(served < n ∧ st.fileIndex < files.length) := by omega
    have hrem := remainingFrom_out files st hfi
    exact ⟨st, by rw [servePhotonsGo.eq_def, if_neg hexit, hrem]; simp,
      by rw [hrem]; simp⟩
  | succ a iha =>
    intro b
    induction b with
    | zero =>
      intro st acc served ha hb
      have h0 : n - served = 0 := by omega
      have hexit : ¬(served < n ∧ st.fileIndex < files.length) := by omega
      exact ⟨st, by rw [servePhotonsGo.eq_def, if_neg hexit, h0]; simp,
        by rw [h0]; simp⟩
    | succ b ihb =>
      intro st acc served ha hb
      by_cases hloop : served < n ∧ st.fileIndex < files.length
      · have hfi := hloop.2
        have hopenf : (curFile files st).openable = true := by
          rw [curFile_eq files st hfi]
          exact hopen _ (List.get_mem files st.fileIndex hfi)
        have hP := maxPhotonsPerBatch_pos mem
        have hT_le_n : toRead files mem n st served ≤ n - served := by
          unfold toRead; exact Nat.min_le_left _ _
        have hT_le_rem : toRead files mem n st served
            ≤ (curFile files st).fields.length / 8 - st.photonIndex := by
          unfold toRead
          exact le_trans (Nat.min_le_right _ _) (Nat.min_le_left _ _)
        have hread : toRead files mem n st served = 0
            ∨ (st.photonIndex + toRead files mem n st served) * 8
                ≤ (curFile files st).fields.length := by
          by_cases h0 : toRead files mem n st served = 0
          · exact Or.inl h0
          · right; omega
        by_cases hadv : (curFile files st).fields.length / 8
            ≤ st.photonIndex + toRead files mem n st served
        · have hteq : toRead files mem n st served
              = (curFile files st).fields.length / 8 - st.photonIndex := by omega
          obtain ⟨st', hgo, hrem'⟩ :=
            iha n ⟨st.fileIndex + 1, 0⟩
              (acc ++ decodeRecords (curFile files st).fields st.photonIndex
                  (toRead files mem n st served))
              (served + toRead files mem n st served) (by dsimp only; omega) (by omega)
          have hsplit := remainingFrom_advance files st hfi _ hteq
          have hlen : (decodeRecords (curFile files st).fields st.photonIndex
              (toRead files mem n st served)).length ≤ n - served := by
            rw [decodeRecords_length]; omega
          obtain ⟨hT, hD⟩ := chunk_take_drop
            (decodeRecords (curFile files st).fields st.photonIndex
              (toRead files mem n st served))
            (remainingFrom files ⟨st.fileIndex + 1, 0⟩) acc (n - served) hlen
          have harg : n - (served + toRead files mem n st served)
              = n - served - (decodeRecords (curFile files st).fields st.photonIndex
                  (toRead files mem n st served)).length := by
            rw [decodeRecords_length]; omega
          refine ⟨st', ?_, ?_⟩
          · rw [servePhotonsGo.eq_def, if_pos hloop, if_pos hopenf, if_pos hread,
              if_pos hadv, hgo, harg, hT, hsplit]
          · rw [hrem', harg, hD, hsplit]
        · have hstay : st.photonIndex + toRead files mem n st served
              ≤ (curFile files st).fields.length / 8 := by omega
          have hT_pos : 1 ≤ toRead files mem n st served := by
            unfold toRead
            refine le_min (by omega) (le_min (by omega) hP)
          obtain ⟨st', hgo, hrem'⟩ :=
            ihb ⟨st.fileIndex, st.photonIndex + toRead files mem n st served⟩
              (acc ++ decodeRecords (curFile files st).fields st.photonIndex
                  (toRead files mem n st served))
              (served + toRead files mem n st served) (by dsimp only; omega)
              (by omega)
          have hsplit := remainingFrom_stay files st hfi _ hstay
          have hlen : (decodeRecords (curFile files st).fields st.photonIndex
              (toRead files mem n st served)).length ≤ n - served := by
            rw [decodeRecords_length]; omega
          obtain ⟨hT, hD⟩ := chunk_take_drop
            (decodeRecords (curFile files st).fields st.photonIndex
              (toRead files mem n st served))
            (remainingFrom files
              ⟨st.fileIndex, st.photonIndex + toRead files mem n st served⟩)
            acc (n - served) hlen
          have harg : n - (served + toRead files mem n st served)
              = n - served - (decodeRecords (curFile files st).fields st.photonIndex
                  (toRead files mem n st served)).length := by
            rw [decodeRecords_length]; omega
          refine ⟨st', ?_, ?_⟩
          · rw [servePhotonsGo.eq_def, if_pos hloop, if_pos hopenf, if_pos hread,
              if_neg hadv, hgo, harg, hT, hsplit]
          · rw [hrem', harg, hD, hsplit]
      · rcases Nat.lt_or_ge served n with hs | hs
        · have hfi : files.length ≤ st.fileIndex := by
            by_contra hc
            exact hloop ⟨hs, by omega⟩
          have hrem := remainingFrom_out files st hfi
          exact ⟨st, by rw [servePhotonsGo.eq_def, if_neg hloop, hrem]; simp,
            by rw [hrem]; simp⟩
        · have h0 : n - served = 0 := by omega
          exact ⟨st, by rw [servePhotonsGo.eq_def, if_neg hloop, h0]; simp,
            by rw [h0]; simp⟩

theorem servePhotons_spec (files : List DataFile) (mem : Nat)
    (hopen : ∀ f ∈ files, f.openable = true) (n : Nat) (st : Cursor) :
    ∃ st', servePhotons files mem n st
        = .ok ((remainingFrom files st).take n, st')
      ∧ remainingFrom files st' = (remainingFrom files st).drop n := by
  obtain ⟨st', h1, h2⟩ :=
    servePhotonsGo_spec files mem hopen n files.length n st [] 0 (by omega) (by omega)
  exact ⟨st', by simpa using h1, by simpa using h2⟩

end Server

namespace Server

/-- Repeated pulls: serve `n` photons for each `n` in the request list,
threading the cursor state from call to call, concatenating everything
served (the benchmark driver's loop over `servePhotons`). -/
def serveSeq (files : List DataFile) (mem : Nat) :
    List Nat → Cursor → Except String (List Photon)
  | [], _ => .ok []
  | n :: ns, st =>
    match servePhotons files mem n st with
    | .error e => .error e
    | .ok (ps, st2) =>
      match serveSeq files mem ns st2 with
      | .error e => .error e
      | .ok rest => .ok (ps ++ rest)

theorem serveSeq_spec (files : List DataFile) (mem : Nat)
    (hopen : ∀ f ∈ files, f.openable = true) :
    ∀ (ns : List Nat) (st : Cursor),
      serveSeq files mem ns st = .ok ((remainingFrom files st).take ns.sum) := by
  intro ns
  induction ns with
  | nil =>
    intro st
    simp [serveSeq]
  | cons n ns ih =>
    intro st
    obtain ⟨st2, h1, h2⟩ := servePhotons_spec files mem hopen n st
    simp only [serveSeq, h1, ih st2, h2, List.sum_cons]
    rw [List.take_add]

end Server

/-- C4: for a fixed file set (all files readable) and any partition
`ns` of a total request, serving `ns` piecewise through repeated
`servePhotons` calls yields, concatenated, exactly what the single call
`servePhotons (ns.sum)` yields (namely the next `ns.sum` photons of the
remaining stream); and a call that returns fewer items than requested
leaves nothing remaining — it happens only when all files are
exhausted. -/
theorem C4_serve_partition (files : List Server.DataFile) (mem : Nat)
    (st st3 : Server.Cursor) (ns : List Nat) (L : List Photon)
    (hopen : ∀ f ∈ files, f.openable = true)
    (hserve : Server.servePhotons files mem ns.sum st = Except.ok (L, st3)) :
    L = (Server.remainingFrom files st).take ns.sum
    ∧ Server.serveSeq files mem ns st = Except.ok L
    ∧ (L.length < ns.sum → Server.remainingFrom files st3 = []) := by
  obtain ⟨st', h1, h2⟩ := Server.servePhotons_spec files mem hopen ns.sum st
  rw [h1] at hserve
  have hpair := Except.ok.inj hserve
  have hL : (Server.remainingFrom files st).take ns.sum = L := congrArg Prod.fst hpair
  have hst : st' = st3 := congrArg Prod.snd hpair
  refine ⟨hL.symm, ?_, ?_⟩
  · rw [Server.serveSeq_spec files mem hopen ns st, hL]
  · intro hlen
    rw [← hst, h2]
    apply List.drop_eq_nil_of_le
    have hlen2 : ((Server.remainingFrom files st).take ns.sum).length < ns.sum := by
      rw [hL]; exact hlen
    simp [List.length_take] at hlen2
    omega

theorem C4_serve_partition_witness :
    [(⟨0, 0, 0, 0, 0, 0, 0, 0⟩ : Photon), ⟨0, 0, 0, 0, 0, 0, 0, 0⟩]
      = (Server.remainingFrom
          [⟨true, [0, 0, 0, 0, 0, 0, 0, 0, 0, 0, 0, 0, 0, 0, 0, 0]⟩] ⟨0, 0⟩).take ([2, 3].sum)
    ∧ Server.serveSeq [⟨true, [0, 0, 0, 0, 0, 0, 0, 0, 0, 0, 0, 0, 0, 0, 0, 0]⟩] 0
        [2, 3] ⟨0, 0⟩
      = Except.ok [(⟨0, 0, 0, 0, 0, 0, 0, 0⟩ : Photon), ⟨0, 0, 0, 0, 0, 0, 0, 0⟩]
    ∧ Server.remainingFrom
        [⟨true, [0, 0, 0, 0, 0, 0, 0, 0, 0, 0, 0, 0, 0, 0, 0, 0]⟩] ⟨1, 0⟩ = [] := by
  have h := C4_serve_partition
    [⟨true, [0, 0, 0, 0, 0, 0, 0, 0, 0, 0, 0, 0, 0, 0, 0, 0]⟩] 0 ⟨0, 0⟩ ⟨1, 0⟩ [2, 3]
    [⟨0, 0, 0, 0, 0, 0, 0, 0⟩, ⟨0, 0, 0, 0, 0, 0, 0, 0⟩]
    (by decide)
    (by simp [Server.servePhotons, Server.servePhotonsGo.eq_def, Server.curFile,
          Server.toRead, Server.maxPhotonsPerBatch, Server.getMemoryThreshold,
          Server.decodeRecords, Server.decodeRecord, Server.ratTrunc, List.range_succ])
  exact ⟨h.1, h.2.1, h.2.2 (by decide)⟩

/-- C5 counterexample: a truncated data file — 9 eight-byte fields, so
72 bytes, not a multiple of the 64-byte record width — does NOT make
`servePhotons` raise a decoding error: the call returns `ok`, serving
the one complete record and silently ignoring the trailing 8 bytes,
which refutes the claim that truncated data is never silently skipped. -/
theorem C5_truncated_counterexample :
    Server.servePhotons [⟨true, [1, 2, 3, 4, 5, 6, 7, 8, 9]⟩] 0 5 ⟨0, 0⟩
      = Except.ok ([⟨1, 2, 3, 4, 5, 6, 7, 8⟩], ⟨1, 0⟩) := by
  simp [Server.servePhotons, Server.servePhotonsGo.eq_def, Server.curFile,
    Server.toRead, Server.maxPhotonsPerBatch, Server.getMemoryThreshold,
    Server.decodeRecords, Server.decodeRecord, Server.ratTrunc, List.range_succ]

/-- C5 amended: a file that cannot be opened raises a decoding error,
but a truncated file (byte length not a multiple of the 64-byte record
width, i.e. field count not a multiple of 8) is served without error:
the record count is the byte length integrally divided by 64, so the
trailing incomplete record is silently ignored. -/
theorem C5_unreadable_raises_truncated_tolerated (f g : Server.DataFile) (mem n : Nat)
    (hf : f.openable = true) (htrunc : f.fields.length % 8 ≠ 0) (hn : 0 < n)
    (hg : g.openable = false) :
    (Server.servePhotons [f] mem n ⟨0, 0⟩).map Prod.fst
        = Except.ok ((Server.fileRecords f).take n)
    ∧ (Server.fileRecords f).length = f.fields.length / 8
    ∧ Server.servePhotons [g] mem n ⟨0, 0⟩
        = Except.error "Failed to open .dat file" := by
  refine ⟨?_, ?_, ?_⟩
  · obtain ⟨st', h1, h2⟩ :=
      Server.servePhotons_spec [f] mem (by simp [hf]) n ⟨0, 0⟩
    rw [h1]
    have hrem : Server.remainingFrom [f] ⟨0, 0⟩ = Server.fileRecords f := by
      rw [Server.remainingFrom_zero [f] 0]
      simp
    rw [hrem]
    rfl
  · exact Server.decodeRecords_length _ _ _
  · rw [Server.servePhotons, Server.servePhotonsGo.eq_def]
    have hc : Server.curFile [g] ⟨0, 0⟩ = g := rfl
    rw [if_pos ⟨hn, by simp⟩, hc, if_neg (by simp [hg])]

theorem C5_unreadable_raises_truncated_tolerated_witness :
    (Server.servePhotons [⟨true, [1, 2, 3, 4, 5, 6, 7, 8, 9]⟩] 0 5 ⟨0, 0⟩).map Prod.fst
        = Except.ok ((Server.fileRecords ⟨true, [1, 2, 3, 4, 5, 6, 7, 8, 9]⟩).take 5)
    ∧ (Server.fileRecords ⟨true, [1, 2, 3, 4, 5, 6, 7, 8, 9]⟩).length
        = (Server.DataFile.mk true [1, 2, 3, 4, 5, 6, 7, 8, 9]).fields.length / 8
    ∧ Server.servePhotons [⟨false, []⟩] 0 5 ⟨0, 0⟩
        = Except.error "Failed to open .dat file" :=
  C5_unreadable_raises_truncated_tolerated
    ⟨true, [1, 2, 3, 4, 5, 6, 7, 8, 9]⟩ ⟨false, []⟩ 0 5 rfl (by decide) (by decide) rfl

namespace gcf

/-- The host byte orders distinguished by `gcf::Endianness`. -/
inductive Endianness where
  | Big
  | Little
  | Mixed
deriving Repr, DecidableEq

/-- Byte `i` (little-endian byte position) of a 64-bit word. -/
def byte (i v : Nat) : Nat := v / 2 ^ (8 * i) % 256

/-- The 8 bytes of a 64-bit word, least significant first. -/
def toBytesLE (v : Nat) : List Nat := (List.range 8).map fun i => byte i v

/-- Reassemble a little-endian byte list into a word. -/
def fromBytesLE : List Nat → Nat
  | [] => 0
  | b :: bs => b + 256 * fromBytesLE bs

/-- `std::byteswap` on a 64-bit word: the 8 bytes in reverse order. -/
def byteswap64 (v : Nat) : Nat := fromBytesLE (toBytesLE v).reverse

/-- `gcf::convertToNativeEndian`: on a little-endian host the 8-byte
field is byte-swapped; on a big-endian host it is returned unchanged;
on any other host the function throws. -/
def convertToNativeEndian (host : Endianness) (v : Nat) : Except String Nat :=
  match host with
  | .Little => .ok (byteswap64 v)
  | .Big => .ok v
  | .Mixed => .error "Unsupported or mixed-endian system."

theorem byte_lt (i v : Nat) : byte i v < 256 :=
  Nat.mod_lt _ (by norm_num)

theorem toBytesLE_eq (v : Nat) :
    toBytesLE v = [byte 0 v, byte 1 v, byte 2 v, byte 3 v,
      byte 4 v, byte 5 v, byte 6 v, byte 7 v] := by
  simp [toBytesLE, List.range_succ]

theorem byte_fromBytesLE : ∀ (bs : List Nat) (i : Nat), (∀ b ∈ bs, b < 256) →
    byte i (fromBytesLE bs) = bs.getD i 0 := by
  intro bs
  induction bs with
  | nil =>
    intro i h
    simp [fromBytesLE, byte]
  | cons b bs ih =>
    intro i h
    have hb : b < 256 := h b (List.mem_cons_self b bs)
    match i with
    | 0 =>
      show byte 0 (b + 256 * fromBytesLE bs) = _
      simp [byte, Nat.add_mul_mod_self_left, Nat.mod_eq_of_lt hb]
    | i + 1 =>
      show byte (i + 1) (b + 256 * fromBytesLE bs) = (b :: bs).getD (i + 1) 0
      have h8 : 8 * (i + 1) = 8 + 8 * i := by ring
      simp only [byte, h8, pow_add]
      rw [← Nat.div_div_eq_div_mul]
      have h2 : (b + 256 * fromBytesLE bs) / 2 ^ 8 = fromBytesLE bs := by
        have h256 : (2 : Nat) ^ 8 = 256 := by norm_num
        rw [h256, Nat.add_mul_div_left _ _ (by norm_num : (0 : Nat) < 256),
          Nat.div_eq_of_lt hb]
        simp
      rw [h2, List.getD_cons_succ]
      have := ih i fun x hx => h x (List.mem_cons_of_mem b hx)
      simpa [byte] using this

theorem byte_byteswap64 (v i : Nat) (hi : i < 8) :
    byte i (byteswap64 v) = byte (7 - i) v := by
  have hlt : ∀ b ∈ (toBytesLE v).reverse, b < 256 := by
    intro b hb
    rw [toBytesLE_eq] at hb
    simp at hb
    rcases hb with h | h | h | h | h | h | h | h <;> (subst h; exact byte_lt _ _)
  rw [byteswap64, byte_fromBytesLE _ i hlt, toBytesLE_eq]
  interval_cases i <;> rfl

end gcf

/-- C6: applied to an 8-byte field value, `convertToNativeEndian` on a
little-endian host returns the value with its 8 bytes reversed; on a
big-endian host it returns the value unchanged; and on a host that is
neither strictly big- nor little-endian it fails with an
unsupported-endianness error instead of returning a value. -/
theorem C6_convertToNativeEndian (v : Nat) (hv : v < 2 ^ 64) :
    (gcf.convertToNativeEndian .Little v = .ok (gcf.byteswap64 v)
      ∧ ∀ i, i < 8 → gcf.byte i (gcf.byteswap64 v) = gcf.byte (7 - i) v)
    ∧ gcf.convertToNativeEndian .Big v = .ok v
    ∧ gcf.convertToNativeEndian .Mixed v
        = .error "Unsupported or mixed-endian system." :=
  ⟨⟨rfl, fun i hi => gcf.byte_byteswap64 v i hi⟩, rfl, rfl⟩

theorem C6_convertToNativeEndian_witness :
    (gcf.convertToNativeEndian .Little 0x0102030405060708
        = .ok (gcf.byteswap64 0x0102030405060708)
      ∧ ∀ i, i < 8 →
          gcf.byte i (gcf.byteswap64 0x0102030405060708)
            = gcf.byte (7 - i) 0x0102030405060708)
    ∧ gcf.convertToNativeEndian .Big 0x0102030405060708 = .ok 0x0102030405060708
    ∧ gcf.convertToNativeEndian .Mixed 0x0102030405060708
        = .error "Unsupported or mixed-endian system." :=
  C6_convertToNativeEndian 0x0102030405060708 (by norm_num)

/-- 3-vector (struct `vec3d`); the C++ `double` components are
idealized as real numbers. -/
structure vec3d where
  x : ℝ
  y : ℝ
  z : ℝ

namespace vec3d

/-- `operator-` (componentwise subtraction). -/
noncomputable def sub (a b : vec3d) : vec3d :=
  ⟨a.x - b.x, a.y - b.y, a.z - b.z⟩

/-- `operator/(double)`: the source computes `s = 1./s` and multiplies
each component by it. -/
noncomputable def divs (a : vec3d) (s : ℝ) : vec3d :=
  ⟨a.x * (1 / s), a.y * (1 / s), a.z * (1 / s)⟩

/-- `norm2`. -/
noncomputable def norm2 (a : vec3d) : ℝ := a.x * a.x + a.y * a.y + a.z * a.z

/-- `norm`. -/
noncomputable def norm (a : vec3d) : ℝ := Real.sqrt a.norm2

/-- `normalized`: divide by the square root of `norm2` when it is
positive, else return the vector unchanged. -/
noncomputable def normalized (a : vec3d) : vec3d :=
  if 0 < a.norm2 then divs a (Real.sqrt a.norm2) else a

/-- `dot`. -/
noncomputable def dot (a b : vec3d) : ℝ := a.x * b.x + a.y * b.y + a.z * b.z

/-- `cross`. -/
noncomputable def cross (a b : vec3d) : vec3d :=
  ⟨a.y * b.z - a.z * b.y, a.z * b.x - a.x * b.z, a.x * b.y - a.y * b.x⟩

end vec3d

/-- The `vec3d` built from a photon's position fields. -/
noncomputable def Photon.pos (p : Photon) : vec3d := ⟨(p.x : ℝ), (p.y : ℝ), (p.z : ℝ)⟩

namespace gcf

/-- `gcf::transformToLocal`: coordinates of a vector in the local frame
`(ip, jp, kp)`. -/
noncomputable def transformToLocal (vector ip jp kp : vec3d) : vec3d :=
  ⟨vec3d.dot vector ip, vec3d.dot vector jp, vec3d.dot vector kp⟩

end gcf

namespace RaypathDirectionsProcessor

/-- `RaypathDirectionsProcessor::processRayPath`: find the first photon
whose `surfaceID` is the reference surface (else return nothing); find
the first photon whose `ID` equals its `previousID` (else throw);
return the reference photon's position, the direction toward the
predecessor normalized by dividing by the distance, and the distance.
The C++ exception is modelled as `Except.error`. -/
noncomputable def processRayPath (surfaceID : Int) (rayPath : RayPath) :
    Except String (Option (vec3d × vec3d × ℝ)) :=
  match rayPath.photons.find? (fun p => p.surfaceID = surfaceID) with
  | none => .ok none
  | some photonA =>
    match rayPath.photons.find? (fun p => p.ID = photonA.previousID) with
    | none => .error "RayPath processing error: photonB not found for photonA"
    | some photonB =>
      let vectorDifference := vec3d.sub (Photon.pos photonB) (Photon.pos photonA)
      let length := vec3d.norm vectorDifference
      let directionVector := vec3d.divs vectorDifference length
      .ok (some (Photon.pos photonA, directionVector, length))

end RaypathDirectionsProcessor

/-- C7: the Directions processor returns nothing (no result, no error)
when no photon of the path lies on the reference surface; and when a
reference-surface photon exists but no photon of the path has its
`previousID` as `ID`, it signals a processing error rather than
silently skipping the path. -/
theorem C7_directions_error_handling (surfaceID : Int) (rp : RayPath) :
    ((∀ p ∈ rp.photons, p.surfaceID ≠ surfaceID) →
      RaypathDirectionsProcessor.processRayPath surfaceID rp = .ok none)
    ∧ (∀ a, rp.photons.find? (fun p => p.surfaceID = surfaceID) = some a →
        (∀ p ∈ rp.photons, p.ID ≠ a.previousID) →
        RaypathDirectionsProcessor.processRayPath surfaceID rp
          = .error "RayPath processing error: photonB not found for photonA") := by
  constructor
  · intro hnone
    have h1 : rp.photons.find? (fun p => p.surfaceID = surfaceID) = none := by
      rw [List.find?_eq_none]
      intro p hp
      simpa using hnone p hp
    simp [RaypathDirectionsProcessor.processRayPath, h1]
  · intro a ha hnopred
    have h2 : rp.photons.find? (fun p => p.ID = a.previousID) = none := by
      rw [List.find?_eq_none]
      intro p hp
      simpa using hnopred p hp
    simp [RaypathDirectionsProcessor.processRayPath, ha, h2]

theorem C7_directions_error_handling_witness :
    RaypathDirectionsProcessor.processRayPath 7
        (RayPath.mk [⟨1, 0, 0, 0, 0, 0, 2, 3⟩, ⟨2, 0, 0, 0, 0, 1, 0, 4⟩]) = .ok none
    ∧ RaypathDirectionsProcessor.processRayPath 7
        (RayPath.mk [⟨1, 0, 0, 0, 0, 9, 2, 7⟩])
      = .error "RayPath processing error: photonB not found for photonA" :=
  ⟨(C7_directions_error_handling 7
      (RayPath.mk [⟨1, 0, 0, 0, 0, 0, 2, 3⟩, ⟨2, 0, 0, 0, 0, 1, 0, 4⟩])).1 (by decide),
    (C7_directions_error_handling 7
      (RayPath.mk [⟨1, 0, 0, 0, 0, 9, 2, 7⟩])).2
      ⟨1, 0, 0, 0, 0, 9, 2, 7⟩ (by decide) (by decide)⟩

/-- C9: the Directions processor divides by the distance with no guard
against zero: when the reference-surface photon and its found
predecessor occupy the same position, the processor still returns a
result (no error) whose direction is the zero vector — not a unit
vector — and whose length is zero; the unit-direction postcondition
needs the two positions to differ. -/
theorem C9_zero_length_division (surfaceID : Int) (rp : RayPath) (a b : Photon)
    (ha : rp.photons.find? (fun p => p.surfaceID = surfaceID) = some a)
    (hb : rp.photons.find? (fun p => p.ID = a.previousID) = some b)
    (hpos : Photon.pos b = Photon.pos a) :
    RaypathDirectionsProcessor.processRayPath surfaceID rp
      = .ok (some (Photon.pos a, vec3d.mk 0 0 0, 0))
    ∧ vec3d.norm (vec3d.mk 0 0 0) ≠ 1 := by
  have hdiff : vec3d.sub (Photon.pos b) (Photon.pos a) = vec3d.mk 0 0 0 := by
    rw [hpos]
    simp [vec3d.sub]
  have hnorm0 : vec3d.norm (vec3d.mk 0 0 0) = 0 := by
    simp [vec3d.norm, vec3d.norm2]
  constructor
  · simp only [RaypathDirectionsProcessor.processRayPath, ha, hb, hdiff, hnorm0]
    simp [vec3d.divs]
  · rw [hnorm0]
    norm_num

theorem C9_zero_length_division_witness :
    RaypathDirectionsProcessor.processRayPath 7
        (RayPath.mk [⟨3, 0, 0, 0, 0, 0, 5, 1⟩, ⟨5, 0, 0, 0, 0, 3, 0, 7⟩])
      = .ok (some (Photon.pos ⟨5, 0, 0, 0, 0, 3, 0, 7⟩, vec3d.mk 0 0 0, 0))
    ∧ vec3d.norm (vec3d.mk 0 0 0) ≠ 1 :=
  C9_zero_length_division 7
    (RayPath.mk [⟨3, 0, 0, 0, 0, 0, 5, 1⟩, ⟨5, 0, 0, 0, 0, 3, 0, 7⟩])
    ⟨5, 0, 0, 0, 0, 3, 0, 7⟩ ⟨3, 0, 0, 0, 0, 0, 5, 1⟩
    (by decide) (by decide) rfl

namespace gcf

/-- `gcf::degree` = Pi/180. -/
noncomputable def degree : ℝ := Real.pi / 180

theorem degree_pos : 0 < degree := by
  unfold degree
  positivity

theorem pi_div_degree : Real.pi / degree = 180 := by
  unfold degree
  field_simp

end gcf

/-- C `atan2(y, x)`: the argument of the point `(x, y)`, in `(-pi, pi]`,
with `atan2 0 0 = 0`. -/
noncomputable def atan2 (y x : ℝ) : ℝ := Complex.arg ⟨x, y⟩

namespace RaypathLocalCoordinateProcessor

/-- The per-instance configuration of the Local Coordinates processor:
reference surface, surface center, and the local frame `(ip, jp, kp)`. -/
structure Config where
  surfaceID : Int
  center : vec3d
  ip : vec3d
  jp : vec3d
  kp : vec3d

/-- The constructor: `kp` is the normalized surface normal; `ip` and
`jp` are built by projecting `kp` onto the XY plane and taking two
normalized cross products. -/
noncomputable def mkConfig (surfaceID : Int) (center normal : vec3d) : Config :=
  let kp := normal.normalized
  let projectionXY : vec3d := ⟨kp.x, kp.y, 0⟩
  let ip := (vec3d.cross projectionXY kp).normalized
  let jp := (vec3d.cross kp ip).normalized
  ⟨surfaceID, center, ip, jp, kp⟩

/-- The result computed when `photon2` lies on the reference surface
and `photon1` is its predecessor: local coordinates of the surface hit,
path length of the pair, azimuth normalized to `[0, 360)`, and zenith
angle from `acos` of the local z-component. -/
noncomputable def pairResult (cfg : Config) (photon1 photon2 : Photon) :
    vec3d × ℝ × ℝ × ℝ :=
  let photonA_coordinates := Photon.pos photon2
  let photonB_coordinates := Photon.pos photon1
  let vectorDifference := vec3d.sub photonB_coordinates photonA_coordinates
  let length := vec3d.norm vectorDifference
  let directionVector :=
    gcf.transformToLocal vectorDifference.normalized cfg.ip cfg.jp cfg.kp
  let photonA_local :=
    gcf.transformToLocal (vec3d.sub photonA_coordinates cfg.center) cfg.ip cfg.jp cfg.kp
  let azimuth0 := atan2 directionVector.x directionVector.y / gcf.degree
  let azimuth := if azimuth0 < 0 then azimuth0 + 360 else azimuth0
  let zenith_angle := Real.arccos directionVector.z / gcf.degree
  (photonA_local, length, azimuth, zenith_angle)

/-- The scan loop of `RaypathLocalCoordinateProcessor::processRayPath`:
`photon1` trails `photon2` through the path; when `photon2` matches the
reference surface, `photon1` must be its predecessor (else throw) and
the pair's result is returned; otherwise the pair advances. -/
noncomputable def localLoop (cfg : Config) :
    Photon → List Photon → Except String (Option (vec3d × ℝ × ℝ × ℝ))
  | _, [] => .ok none
  | photon1, photon2 :: rest =>
    if photon2.surfaceID = cfg.surfaceID then
      if photon1.ID ≠ photon2.previousID then
        .error "RayPath processing error: photon1 is not photonB for photonA"
      else .ok (some (pairResult cfg photon1 photon2))
    else localLoop cfg photon2 rest

/-- `RaypathLocalCoordinateProcessor::processRayPath`: paths with fewer
than 2 photons are discarded; otherwise the loop starts with `photon1`
at index 0 and `photon2` at index 1. -/
noncomputable def processRayPath (cfg : Config) (rayPath : RayPath) :
    Except String (Option (vec3d × ℝ × ℝ × ℝ)) :=
  match rayPath.photons with
  | p1 :: p2 :: rest => localLoop cfg p1 (p2 :: rest)
  | _ => .ok none

theorem pairResult_angle_bounds (cfg : Config) (p1 p2 : Photon) :
    (pairResult cfg p1 p2).2.2.1 ∈ Set.Ico (0 : ℝ) 360
    ∧ (pairResult cfg p1 p2).2.2.2 ∈ Set.Icc (0 : ℝ) 180 := by
  have hdeg := gcf.degree_pos
  simp only [pairResult]
  constructor
  · set A := atan2
      (gcf.transformToLocal
        (vec3d.sub (Photon.pos p1) (Photon.pos p2)).normalized cfg.ip cfg.jp cfg.kp).x
      (gcf.transformToLocal
        (vec3d.sub (Photon.pos p1) (Photon.pos p2)).normalized cfg.ip cfg.jp cfg.kp).y
      with hA
    have harg : A ∈ Set.Ioc (-Real.pi) Real.pi := by
      rw [hA, atan2]
      exact Complex.arg_mem_Ioc _
    have h1 : A / gcf.degree ≤ 180 := by
      rw [div_le_iff hdeg]
      calc A ≤ Real.pi := harg.2
        _ = 180 * gcf.degree := by
            unfold gcf.degree
            ring
    have h2 : -180 < A / gcf.degree := by
      rw [lt_div_iff hdeg]
      calc (-180) * gcf.degree = -Real.pi := by
            unfold gcf.degree
            ring
        _ < A := harg.1
    split_ifs with hneg
    · exact ⟨by linarith, by linarith⟩
    · exact ⟨by linarith, by linarith⟩
  · constructor
    · exact div_nonneg (Real.arccos_nonneg _) hdeg.le
    · calc Real.arccos _ / gcf.degree
          ≤ Real.pi / gcf.degree := by
            apply div_le_div_of_nonneg_right ?_ hdeg.le
            exact Real.arccos_le_pi _
        _ = 180 := gcf.pi_div_degree

theorem localLoop_ok_some (cfg : Config) :
    ∀ (l : List Photon) (p1 : Photon) (r : vec3d × ℝ × ℝ × ℝ),
      localLoop cfg p1 l = .ok (some r) →
      ∃ q1 q2, r = pairResult cfg q1 q2 := by
  intro l
  induction l with
  | nil =>
    intro p1 r h
    simp [localLoop] at h
  | cons p2 rest ih =>
    intro p1 r h
    by_cases hs : p2.surfaceID = cfg.surfaceID
    · by_cases hid : p1.ID ≠ p2.previousID
      · simp [localLoop, hs, hid] at h
      · simp [localLoop, hs, hid] at h
        exact ⟨p1, p2, h.symm⟩
    · simp only [localLoop, if_neg hs] at h
      exact ih p2 r h

theorem localLoop_no_match (cfg : Config) :
    ∀ (l : List Photon) (p1 : Photon),
      (∀ q ∈ l, q.surfaceID ≠ cfg.surfaceID) →
      localLoop cfg p1 l = .ok none := by
  intro l
  induction l with
  | nil =>
    intro p1 h
    simp [localLoop]
  | cons p2 rest ih =>
    intro p1 h
    have h2 : ¬(p2.surfaceID = cfg.surfaceID) := h p2 (List.mem_cons_self p2 rest)
    simp only [localLoop, if_neg h2]
    exact ih p2 fun q hq => h q (List.mem_cons_of_mem p2 hq)

end RaypathLocalCoordinateProcessor

/-- C8: whenever the Local Coordinates processor produces a result, the
returned azimuth lies in `[0, 360)` degrees and the returned elevation
(zenith) angle lies in `[0, 180]` degrees. -/
theorem C8_local_coordinate_angle_ranges (cfg : RaypathLocalCoordinateProcessor.Config)
    (rp : RayPath) (r : vec3d × ℝ × ℝ × ℝ)
    (h : RaypathLocalCoordinateProcessor.processRayPath cfg rp = .ok (some r)) :
    r.2.2.1 ∈ Set.Ico (0 : ℝ) 360 ∧ r.2.2.2 ∈ Set.Icc (0 : ℝ) 180 := by
  rcases hph : rp.photons with _ | ⟨p1, _ | ⟨p2, rest⟩⟩
  · rw [RaypathLocalCoordinateProcessor.processRayPath, hph] at h
    simp at h
  · rw [RaypathLocalCoordinateProcessor.processRayPath, hph] at h
    simp at h
  · rw [RaypathLocalCoordinateProcessor.processRayPath, hph] at h
    obtain ⟨q1, q2, hr⟩ :=
      RaypathLocalCoordinateProcessor.localLoop_ok_some cfg (p2 :: rest) p1 r h
    rw [hr]
    exact RaypathLocalCoordinateProcessor.pairResult_angle_bounds cfg q1 q2

theorem C8_local_coordinate_angle_ranges_witness :
    (RaypathLocalCoordinateProcessor.pairResult
        ⟨7, ⟨0, 0, 0⟩, ⟨1, 0, 0⟩, ⟨0, 1, 0⟩, ⟨0, 0, 1⟩⟩
        ⟨1, 0, 0, 0, 0, 0, 2, 3⟩ ⟨2, 0, 0, 0, 0, 1, 0, 7⟩).2.2.1
      ∈ Set.Ico (0 : ℝ) 360
    ∧ (RaypathLocalCoordinateProcessor.pairResult
        ⟨7, ⟨0, 0, 0⟩, ⟨1, 0, 0⟩, ⟨0, 1, 0⟩, ⟨0, 0, 1⟩⟩
        ⟨1, 0, 0, 0, 0, 0, 2, 3⟩ ⟨2, 0, 0, 0, 0, 1, 0, 7⟩).2.2.2
      ∈ Set.Icc (0 : ℝ) 180 :=
  C8_local_coordinate_angle_ranges
    ⟨7, ⟨0, 0, 0⟩, ⟨1, 0, 0⟩, ⟨0, 1, 0⟩, ⟨0, 0, 1⟩⟩
    (RayPath.mk [⟨1, 0, 0, 0, 0, 0, 2, 3⟩, ⟨2, 0, 0, 0, 0, 1, 0, 7⟩])
    (RaypathLocalCoordinateProcessor.pairResult
      ⟨7, ⟨0, 0, 0⟩, ⟨1, 0, 0⟩, ⟨0, 1, 0⟩, ⟨0, 0, 1⟩⟩
      ⟨1, 0, 0, 0, 0, 0, 2, 3⟩ ⟨2, 0, 0, 0, 0, 1, 0, 7⟩)
    (by simp [RaypathLocalCoordinateProcessor.processRayPath,
      RaypathLocalCoordinateProcessor.localLoop])

/-- C10: the Local Coordinates processor only tests photons at index 1
and beyond against the reference surface: for a path of length at least
2 whose only reference-surface photon is the first one, it returns
nothing — no result and no error — even though the path contains a
reference-surface photon. -/
theorem C10_first_photon_not_tested (cfg : RaypathLocalCoordinateProcessor.Config)
    (rp : RayPath) (p : Photon) (l : List Photon)
    (hrp : rp.photons = p :: l) (hne : l ≠ [])
    (hp : p.surfaceID = cfg.surfaceID)
    (htail : ∀ q ∈ l, q.surfaceID ≠ cfg.surfaceID) :
    RaypathLocalCoordinateProcessor.processRayPath cfg rp = .ok none := by
  rcases l with _ | ⟨q, rest⟩
  · exact absurd rfl hne
  · rw [RaypathLocalCoordinateProcessor.processRayPath, hrp]
    exact RaypathLocalCoordinateProcessor.localLoop_no_match cfg (q :: rest) p htail

theorem C10_first_photon_not_tested_witness :
    RaypathLocalCoordinateProcessor.processRayPath
        ⟨7, ⟨0, 0, 0⟩, ⟨1, 0, 0⟩, ⟨0, 1, 0⟩, ⟨0, 0, 1⟩⟩
        (RayPath.mk [⟨1, 0, 0, 0, 0, 0, 2, 7⟩, ⟨2, 0, 0, 0, 0, 1, 0, 3⟩])
      = .ok none :=
  C10_first_photon_not_tested
    ⟨7, ⟨0, 0, 0⟩, ⟨1, 0, 0⟩, ⟨0, 1, 0⟩, ⟨0, 0, 1⟩⟩
    (RayPath.mk [⟨1, 0, 0, 0, 0, 0, 2, 7⟩, ⟨2, 0, 0, 0, 0, 1, 0, 3⟩])
    ⟨1, 0, 0, 0, 0, 0, 2, 7⟩ [⟨2, 0, 0, 0, 0, 1, 0, 3⟩]
    rfl (by decide) rfl (by decide)
